import Mathlib

/-!
Verification development for the farbrain incremental embedding-space
placement engine (backend/app/services/scoring.py,
backend/app/services/clustering.py, backend/app/api/ideas.py).

Python floats are modelled as real numbers; numpy arrays as lists.  The
external ML libraries (sklearn cosine similarity aside, which is the standard
mathematical definition) — UMAP, KMeans and scipy's ConvexHull — are treated
as black-box oracles supplied as parameters, matching the spec's stance that
they are replaceable fit/transform/predict boxes.  The global numpy random
generator is modelled as explicit state threaded through the definitions,
with seeding as in the source.
-/

namespace Farbrain

noncomputable section

/-- An embedding vector (numpy 1-d float array). -/
abbrev Emb := List ℝ

/-- Dot product of two vectors (truncating to the shorter, as a helper;
call sites only use it on equal-length vectors). -/
def dot (a b : Emb) : ℝ := (List.zipWith (· * ·) a b).sum

/-- Sum of squares of a vector's entries. -/
def sumSq (a : Emb) : ℝ := (a.map (fun x => x ^ 2)).sum

/-- Euclidean norm. -/
def norm2 (a : Emb) : ℝ := Real.sqrt (sumSq a)

/-- sklearn.metrics.pairwise.cosine_similarity for a single pair of rows:
dot product over the product of norms.  (Lean's division-by-zero convention
returns 0 for a zero vector, which keeps the value in range.) -/
def cosineSim (a b : Emb) : ℝ := dot a b / (norm2 a * norm2 b)

theorem sumSq_nonneg (a : Emb) : 0 ≤ sumSq a := by
  induction a with
  | nil => simp [sumSq]
  | cons x xs ih =>
      simp only [sumSq, List.map_cons, List.sum_cons] at *
      have := sq_nonneg x
      linarith

theorem cauchy_schwarz_step (x y A B d : ℝ) (hA : 0 ≤ A) (hB : 0 ≤ B)
    (hIH : d ^ 2 ≤ A * B) : (x * y + d) ^ 2 ≤ (x ^ 2 + A) * (y ^ 2 + B) := by
  rcases eq_or_lt_of_le hB with hB0 | hBpos
  · subst hB0
    have hd2 : d ^ 2 ≤ 0 := by simpa using hIH
    have hd : d = 0 := by
      have := sq_nonneg d
      exact pow_eq_zero_iff (n := 2) (by norm_num) |>.mp (le_antisymm hd2 this)
    subst hd
    nlinarith [mul_nonneg hA (sq_nonneg y)]
  · nlinarith [sq_nonneg (x * B - y * d),
      mul_nonneg (add_nonneg (sq_nonneg y) hB) (sub_nonneg.mpr hIH), hBpos]

/-- Cauchy–Schwarz for the list dot product, squared form. -/
theorem dot_sq_le (a b : Emb) : dot a b ^ 2 ≤ sumSq a * sumSq b := by
  induction a generalizing b with
  | nil => simp [dot, sumSq]
  | cons x xs ih =>
      cases b with
      | nil => simp [dot, sumSq]
      | cons y ys =>
          have hA := sumSq_nonneg xs
          have hB := sumSq_nonneg ys
          have hIH := ih ys
          simp only [dot, sumSq, List.zipWith_cons_cons, List.map_cons,
            List.sum_cons] at *
          exact cauchy_schwarz_step x y _ _ _ hA hB hIH

/-- The cosine similarity of any two vectors is at most 1. -/
theorem cosineSim_le_one (a b : Emb) : cosineSim a b ≤ 1 := by
  unfold cosineSim norm2
  rcases le_or_lt (Real.sqrt (sumSq a) * Real.sqrt (sumSq b)) 0 with h | h
  · have hz : Real.sqrt (sumSq a) * Real.sqrt (sumSq b) = 0 :=
      le_antisymm h (mul_nonneg (Real.sqrt_nonneg _) (Real.sqrt_nonneg _))
    rw [hz, div_zero]
    norm_num
  · rw [div_le_one h]
    have h1 : dot a b ≤ |dot a b| := le_abs_self _
    have h2 : |dot a b| = Real.sqrt (dot a b ^ 2) := (Real.sqrt_sq_eq_abs _).symm
    have h3 : Real.sqrt (dot a b ^ 2) ≤ Real.sqrt (sumSq a * sumSq b) :=
      Real.sqrt_le_sqrt (dot_sq_le a b)
    calc dot a b ≤ Real.sqrt (dot a b ^ 2) := by rw [← h2]; exact h1
      _ ≤ Real.sqrt (sumSq a * sumSq b) := h3
      _ = Real.sqrt (sumSq a) * Real.sqrt (sumSq b) :=
          Real.sqrt_mul (sumSq_nonneg a) _

/-- np.min over a list (0 for the empty list, which numpy would reject;
all call sites guard against emptiness). -/
def listMin : List ℝ → ℝ
  | [] => 0
  | x :: xs => xs.foldl min x

theorem foldl_min_le_of_le {c : ℝ} :
    ∀ (xs : List ℝ) (x : ℝ), c ≤ x → (∀ y ∈ xs, c ≤ y) → c ≤ xs.foldl min x := by
  intro xs
  induction xs with
  | nil => intro x hx _; simpa using hx
  | cons z zs ih =>
      intro x hx hall
      simp only [List.foldl_cons]
      exact ih (min x z) (le_min hx (hall z (by simp)))
        (fun y hy => hall y (by simp [hy]))

theorem listMin_nonneg {l : List ℝ} (h : ∀ x ∈ l, 0 ≤ x) : 0 ≤ listMin l := by
  cases l with
  | nil => simp [listMin]
  | cons x xs =>
      exact foldl_min_le_of_le xs x (h x (by simp))
        (fun y hy => h y (by simp [hy]))

/-! ## scoring.py -/

/-- scoring.py `min_distance_transform`: nearest-neighbour distance raised to
the power 1.5 and scaled by 300, clipped to 100; 50 for an empty input. -/
def min_distance_transform (similarities : List ℝ) : ℝ :=
  if similarities.length = 0 then 50
  else
    let distances := similarities.map (fun s => 1 - s)
    min 100 (listMin distances ^ (1.5 : ℝ) * 300)

/-- scoring.py `NoveltyScorer`: a pluggable transformation over the
similarity vector. -/
structure NoveltyScorer where
  transform_fn : List ℝ → ℝ

/-- scoring.py `NoveltyScorer.calculate_score`.  Empty `existing` short
circuits to the transform of an empty array; otherwise the dimension check
compares the new vector's length with the (rectangular) existing matrix's
row length and raises `ValueError` on mismatch, modelled as `Except.error`. -/
def NoveltyScorer.calculate_score (sc : NoveltyScorer) (new_embedding : Emb)
    (existing_embeddings : List Emb) : Except String ℝ :=
  match existing_embeddings with
  | [] => .ok (sc.transform_fn [])
  | v :: _ =>
      if v.length ≠ new_embedding.length then
        .error "Embedding dimension mismatch"
      else
        .ok (sc.transform_fn
          (existing_embeddings.map (fun w => cosineSim new_embedding w)))

/-- ideas.py line 39: the scorer instance used by the ingestion pipeline. -/
def novelty_scorer : NoveltyScorer := ⟨min_distance_transform⟩

/-! ## ideas.py `_calculate_novelty_and_closest` -/

/-- An `Idea` row (models/idea.py), with string ids modelled as naturals and
only the fields the placement engine reads or writes. -/
structure Idea where
  id : ℕ
  user_id : ℕ
  embedding : Emb
  x : ℝ
  y : ℝ
  cluster_id : Option ℕ
  novelty_score : ℝ
  closest_idea_id : Option ℕ

/-- Placeholder used for out-of-range list indexing (never reached on the
in-range indices the source uses). -/
def dummyIdea : Idea := ⟨0, 0, [], 0, 0, none, 0, none⟩

/-- np.argmax: index of the first maximal element. -/
def argmaxAux : List ℝ → ℕ → ℕ → ℝ → ℕ
  | [], _, best, _ => best
  | x :: xs, i, best, bv =>
      if bv < x then argmaxAux xs (i + 1) i x else argmaxAux xs (i + 1) best bv

/-- np.argmax over a list (0 on the empty list, which numpy rejects). -/
def argmaxIdx : List ℝ → ℕ
  | [] => 0
  | x :: xs => argmaxAux xs 1 0 x

theorem argmaxAux_lt {n : ℕ} :
    ∀ (xs : List ℝ) (i best : ℕ) (bv : ℝ), best < n → i + xs.length ≤ n →
      argmaxAux xs i best bv < n := by
  intro xs
  induction xs with
  | nil => intro i best bv hb _; simpa [argmaxAux] using hb
  | cons x rest ih =>
      intro i best bv hb hlen
      simp only [argmaxAux, List.length_cons] at *
      by_cases h : bv < x
      · rw [if_pos h]
        exact ih (i + 1) i x (by omega) (by omega)
      · rw [if_neg h]
        exact ih (i + 1) best bv hb (by omega)

theorem argmaxIdx_lt_length {l : List ℝ} (h : l ≠ []) :
    argmaxIdx l < l.length := by
  cases l with
  | nil => simp at h
  | cons x xs =>
      simp only [argmaxIdx, List.length_cons]
      exact argmaxAux_lt xs 1 0 x (by omega) (by omega)

/-- ideas.py `_calculate_novelty_and_closest`: 100 with no closest idea when
the session is empty; otherwise argmax of the cosine similarities picks the
closest idea, the scorer produces the raw score, and a 0.5× penalty applies
when the closest idea belongs to the submitting user and the penalty flag is
on.  A `ValueError` from the scorer propagates (`Except.error`). -/
def calcNoveltyAndClosest (embedding : Emb) (existing_ideas : List Idea)
    (current_user_id : ℕ) (penalize_self_similarity : Bool) :
    Except String (ℝ × Option ℕ) :=
  if existing_ideas.length = 0 then .ok (100, none)
  else
    let similarities := existing_ideas.map (fun i => cosineSim embedding i.embedding)
    let closest_idx := argmaxIdx similarities
    let closest_idea := existing_ideas.getD closest_idx dummyIdea
    match novelty_scorer.calculate_score embedding
        (existing_ideas.map (fun i => i.embedding)) with
    | .error msg => .error msg
    | .ok novelty_score =>
        let final_score :=
          if penalize_self_similarity ∧ closest_idea.user_id = current_user_id
          then novelty_score * 0.5 else novelty_score
        .ok (final_score, some closest_idea.id)

/-! ## clustering.py -/

/-- The clustering-relevant fields of core/config.py `Settings`.  The config
validators force `min_ideas_for_clustering` and `clustering_interval`
positive with `min_ideas_for_clustering ≤ clustering_interval`, and
`2 ≤ max_clusters ≤ 100`. -/
structure Settings where
  min_ideas_for_clustering : ℕ
  clustering_interval : ℕ
  max_clusters : ℕ

/-- The default configuration values of core/config.py. -/
def defaultSettings : Settings := ⟨10, 10, 20⟩

/-- The global numpy random generator, as an abstract pseudo-random source:
`seed` resets the state (np.random.seed), `uniform` draws one float from
[lo, hi) and advances the state (np.random.uniform). -/
structure Rng (S : Type) where
  seed : ℕ → S
  uniform : S → ℝ → ℝ → ℝ × S
  uniform_mem : ∀ s lo hi, lo < hi →
    lo ≤ (uniform s lo hi).1 ∧ (uniform s lo hi).1 < hi

/-- The external ML black boxes (UMAP, sklearn KMeans, scipy ConvexHull),
per the spec's replaceable fit/transform/predict contract.  `U` is the type
of a constructed UMAP model, `K` of a constructed KMeans model.  The fitting
entry points may raise (numerically degenerate input), modelled as
`Except.error`; `hull` returns the hull's vertex indices in hull order and
raises (QhullError) on degenerate input. -/
structure MLOracle (U K : Type) where
  umapNew : ℕ → ℝ → ℕ → U
  umapFitTransform : U → List Emb → Except String (List (ℝ × ℝ))
  umapTransform : U → Emb → ℝ × ℝ
  kmeansNew : ℕ → ℕ → K
  kmeansFitPredict : K → List (ℝ × ℝ) → Except String (List ℕ)
  kmeansPredict : K → ℝ × ℝ → ℕ
  hull : List (ℝ × ℝ) → Except String (List ℕ)

/-- clustering.py `ClusteringService`: per-session holder of the fitted
UMAP and KMeans models (both `None` until the first successful fit). -/
structure ClusteringSvc (U K : Type) where
  n_neighbors : ℕ
  min_dist : ℝ
  random_state : ℕ
  fixed_cluster_count : Option ℕ
  umap_model : Option U
  kmeans_model : Option K

/-- clustering.py `ClusteringResult`. -/
structure ClusteringResult where
  coordinates : List (ℝ × ℝ)
  cluster_labels : List ℕ
  n_clusters : ℕ
  convex_hulls : List (ℕ × List (ℝ × ℝ))

/-- clustering.py `ClusteringService._calculate_n_clusters`: the fixed
override is clamped to [2, n]; otherwise below the clustering threshold the
default 5 is returned, and above it `max(5, ceil(n^(1/3)))` capped at
`max_clusters`.  Python's `n ** (1/3)` is modelled as the real cube root. -/
def calcNClusters (cfg : Settings) (fixed_cluster_count : Option ℕ)
    (n_ideas : ℕ) : ℕ :=
  match fixed_cluster_count with
  | some f => max 2 (min f n_ideas)
  | none =>
      if n_ideas < cfg.min_ideas_for_clustering then 5
      else
        min (max 5 (Nat.ceil ((n_ideas : ℝ) ^ ((1 : ℝ) / 3))))
          cfg.max_clusters

/-- Draw `n` uniforms from [lo, hi), threading the generator state
(one np.random.uniform(lo, hi, n) call). -/
def drawN {S : Type} (R : Rng S) : ℕ → ℝ → ℝ → S → List ℝ × S
  | 0, _, _, s => ([], s)
  | n + 1, lo, hi, s =>
      let p := R.uniform s lo hi
      let rest := drawN R n lo hi p.2
      (p.1 :: rest.1, rest.2)

/-- clustering.py `ClusteringService._generate_random_coordinates`:
re-seeds the global generator with the service's `random_state`, then draws
`n` x-values and `n` y-values from [-10, 10) and pairs them column-wise. -/
def generateRandomCoordinates {S : Type} (R : Rng S) (random_state : ℕ)
    (n_points : ℕ) : List (ℝ × ℝ) × S :=
  let s0 := R.seed random_state
  let xs := drawN R n_points (-10) 10 s0
  let ys := drawN R n_points (-10) 10 xs.2
  (xs.1.zip ys.1, ys.2)

/-- clustering.py `ClusteringService.compute_convex_hull`: with fewer than 3
points all points are returned verbatim; otherwise scipy's hull is attempted
and its vertices returned, any exception falling back to all points. -/
def compute_convex_hull {U K : Type} (o : MLOracle U K)
    (coordinates : List (ℝ × ℝ)) : List (ℝ × ℝ) :=
  if coordinates.length < 3 then coordinates
  else
    match o.hull coordinates with
    | .ok vertices => vertices.map (fun i => coordinates.getD i (0, 0))
    | .error _ => coordinates

/-- clustering.py `ClusteringService._compute_convex_hulls`: one hull per
distinct cluster label (np.unique returns them sorted; the order is
immaterial here, `dedup` keeps first occurrences). -/
def computeConvexHulls {U K : Type} (o : MLOracle U K)
    (coordinates : List (ℝ × ℝ)) (cluster_labels : List ℕ) :
    List (ℕ × List (ℝ × ℝ)) :=
  cluster_labels.dedup.map (fun label =>
    (label, compute_convex_hull o
      ((coordinates.zip cluster_labels).filterMap
        (fun p => if p.2 = label then some p.1 else none))))

/-- clustering.py `ClusteringService.fit_transform`.  Below the clustering
threshold: seeded random coordinates, every row in provisional cluster 0,
no model fitted.  Otherwise a fresh UMAP model is stored and fitted (note:
stored before fitting, so a failed fit leaves an unfitted model in place),
then KMeans with `calcNClusters` clusters is stored and fit_predict run.
The updated service and generator state are returned even when the fit
raises, mirroring the in-place mutation of the Python object. -/
def fitTransform {S U K : Type} (cfg : Settings) (o : MLOracle U K)
    (R : Rng S) (svc : ClusteringSvc U K) (embeddings : List Emb) (g : S) :
    (ClusteringSvc U K × S) × Except String ClusteringResult :=
  let n_ideas := embeddings.length
  if n_ideas < cfg.min_ideas_for_clustering then
    let coords := generateRandomCoordinates R svc.random_state n_ideas
    ((svc, coords.2),
      .ok ⟨coords.1, List.replicate n_ideas 0, 1, []⟩)
  else
    let m := o.umapNew (min svc.n_neighbors (n_ideas - 1)) svc.min_dist
      svc.random_state
    let svc1 : ClusteringSvc U K := { svc with umap_model := some m }
    match o.umapFitTransform m embeddings with
    | .error msg => ((svc1, g), .error msg)
    | .ok coordinates =>
        let n_clusters := calcNClusters cfg svc.fixed_cluster_count n_ideas
        let km := o.kmeansNew n_clusters svc.random_state
        let svc2 : ClusteringSvc U K := { svc1 with kmeans_model := some km }
        match o.kmeansFitPredict km coordinates with
        | .error msg => ((svc2, g), .error msg)
        | .ok cluster_labels =>
            ((svc2, g), .ok ⟨coordinates, cluster_labels, n_clusters,
              computeConvexHulls o coordinates cluster_labels⟩)

/-- clustering.py `ClusteringService.transform`: with no fitted UMAP model,
returns seeded random coordinates (so the incoming generator state is
ignored); otherwise projects through the fitted model. -/
def ClusteringSvc.transform {S U K : Type} (svc : ClusteringSvc U K)
    (o : MLOracle U K) (R : Rng S) (g : S) (embedding : Emb) :
    (ℝ × ℝ) × S :=
  match svc.umap_model with
  | none =>
      let coords := generateRandomCoordinates R svc.random_state 1
      (coords.1.getD 0 (0, 0), coords.2)
  | some m => (o.umapTransform m embedding, g)

/-- clustering.py `ClusteringService.predict_cluster`: 0 when KMeans has
never been fitted. -/
def ClusteringSvc.predict_cluster {U K : Type} (svc : ClusteringSvc U K)
    (o : MLOracle U K) (coordinates : ℝ × ℝ) : ℕ :=
  match svc.kmeans_model with
  | none => 0
  | some km => o.kmeansPredict km coordinates

/-! ## ideas.py `create_idea` / `full_recluster_session`

One session's mutable world: its `Idea` rows, the session row's
re-clustering watermark `last_clustered_idea_count` and its
`penalize_self_similarity` flag (both columns live in a migration not
present here; the watermark starts at 0 for a fresh session per the spec's
"idea count at last successful full fit"), the session's cached
`ClusteringService` instance, the module-level `_recluster_in_progress`
membership for this session, and the global numpy generator state.
External plumbing (HTTP validation, the users table, LLM formatting,
WebSocket broadcasting, cluster-row upserts and label generation) is out of
scope per the spec and not modelled. -/
structure SessionState (S U K : Type) where
  ideas : List Idea
  last_clustered_idea_count : ℕ
  penalize_self_similarity : Bool
  svc : ClusteringSvc U K
  recluster_in_progress : Bool
  rng : S

/-- The `for i, idea in enumerate(ideas)` overwrite loop shared by the
first-fit branch of `create_idea` (lines 294–297) and
`full_recluster_session` (lines 523–526): every idea's coordinates and
cluster id are replaced by the fit result at its index. -/
def applyFitAux (coordinates : List (ℝ × ℝ)) (cluster_labels : List ℕ) :
    ℕ → List Idea → List Idea
  | _, [] => []
  | i, idea :: rest =>
      { idea with
        x := (coordinates.getD i (0, 0)).1
        y := (coordinates.getD i (0, 0)).2
        cluster_id := some (cluster_labels.getD i 0) } ::
        applyFitAux coordinates cluster_labels (i + 1) rest

/-- The response data of one `create_idea` call that the claims inspect:
the new idea's placement, the `coordinates_recalculated` broadcast flag,
whether a `full_recluster_session` task was spawned (step 6), and how many
`fit_transform` executions the synchronous path performed. -/
structure CreateResult where
  x : ℝ
  y : ℝ
  cluster_id : Option ℕ
  novelty_score : ℝ
  closest_idea_id : Option ℕ
  coordinates_recalculated : Bool
  recluster_scheduled : Bool
  fit_calls : ℕ

/-- The tail of `create_idea` (lines 331–468): persist the new idea, then
decide whether to spawn `full_recluster_session` — idea count at or above
the threshold, and either `clustering_interval` ideas since the watermark
or a recalculation with the UMAP model still missing (restart case). -/
def finishCreate {S U K : Type} (cfg : Settings)
    (st : SessionState S U K) (svc : ClusteringSvc U K) (g : S)
    (uid nid : ℕ) (e : Emb) (x y : ℝ) (cluster_id : Option ℕ)
    (novelty_score : ℝ) (closest_idea_id : Option ℕ)
    (coordinates_recalculated : Bool) (ideas : List Idea) (fit_calls : ℕ) :
    SessionState S U K × Except String CreateResult :=
  let idea : Idea := ⟨nid, uid, e, x, y, cluster_id, novelty_score,
    closest_idea_id⟩
  let all_ideas := ideas ++ [idea]
  let actual_total := all_ideas.length
  let ideas_since : ℤ := (actual_total : ℤ) - st.last_clustered_idea_count
  let should_recluster : Bool :=
    decide (cfg.min_ideas_for_clustering ≤ actual_total) &&
      (decide ((cfg.clustering_interval : ℤ) ≤ ideas_since) ||
        (coordinates_recalculated && svc.umap_model.isNone))
  ({ st with ideas := all_ideas, svc := svc, rng := g },
    .ok ⟨x, y, cluster_id, novelty_score, closest_idea_id,
      coordinates_recalculated, should_recluster, fit_calls⟩)

/-- ideas.py `create_idea`, the placement engine's synchronous path
(steps 4–6; embedding generation has already happened and `e` is the final
embedding).  Branches on the existing idea count `n` against the threshold:
bootstrap random placement below `T − 1`; first full fit at exactly `T − 1`
(overwriting every existing idea); above that either a transform through
the cached model or, with the model missing (restart), temporary random
coordinates in provisional cluster 0 with a recalculation flag.  A scorer
`ValueError` propagates to the caller with nothing persisted; a first-fit
exception propagates after the service was already mutated in place. -/
def createIdea {S U K : Type} (cfg : Settings) (o : MLOracle U K)
    (R : Rng S) (st : SessionState S U K) (uid nid : ℕ) (e : Emb) :
    SessionState S U K × Except String CreateResult :=
  let n_existing := st.ideas.length
  match calcNoveltyAndClosest e st.ideas uid st.penalize_self_similarity with
  | .error msg => (st, .error msg)
  | .ok nc =>
      if n_existing < cfg.min_ideas_for_clustering - 1 then
        let px := R.uniform st.rng (-10) 10
        let py := R.uniform px.2 (-10) 10
        finishCreate cfg st st.svc py.2 uid nid e px.1 py.1 none nc.1 nc.2
          false st.ideas 0
      else if n_existing = cfg.min_ideas_for_clustering - 1 then
        let all_embeddings := st.ideas.map (fun i => i.embedding) ++ [e]
        match fitTransform cfg o R st.svc all_embeddings st.rng with
        | ((svc1, g1), .error msg) =>
            ({ st with svc := svc1, rng := g1 }, .error msg)
        | ((svc1, g1), .ok result) =>
            let x := (result.coordinates.getD
              (result.coordinates.length - 1) (0, 0)).1
            let y := (result.coordinates.getD
              (result.coordinates.length - 1) (0, 0)).2
            let cid := result.cluster_labels.getD
              (result.cluster_labels.length - 1) 0
            let updated := applyFitAux result.coordinates
              result.cluster_labels 0 st.ideas
            finishCreate cfg st svc1 g1 uid nid e x y (some cid) nc.1 nc.2
              true updated 1
      else
        match st.svc.umap_model with
        | none =>
            let px := R.uniform st.rng (-10) 10
            let py := R.uniform px.2 (-10) 10
            finishCreate cfg st st.svc py.2 uid nid e px.1 py.1 (some 0)
              nc.1 nc.2 true st.ideas 0
        | some m =>
            let xy := o.umapTransform m e
            let cid := st.svc.predict_cluster o xy
            finishCreate cfg st st.svc st.rng uid nid e xy.1 xy.2 (some cid)
              nc.1 nc.2 false st.ideas 0

/-- ideas.py `full_recluster_session`, the detached background task.
Dropped immediately when a re-cluster is already in progress for the
session; otherwise the in-progress mark is set, the body runs with every
exception caught and logged, and the mark is discarded in a `finally`.
The body: nothing below the threshold; otherwise a full fit over all
current embeddings, and only on success are every idea's coordinates and
cluster ids overwritten and the watermark advanced to the idea count.
Returns the new state and the number of `fit_transform` executions. -/
def fullRecluster {S U K : Type} (cfg : Settings) (o : MLOracle U K)
    (R : Rng S) (st : SessionState S U K) : SessionState S U K × ℕ :=
  if st.recluster_in_progress then (st, 0)
  else
    let st0 : SessionState S U K := { st with recluster_in_progress := true }
    let body : SessionState S U K × ℕ :=
      if st0.ideas.length < cfg.min_ideas_for_clustering then (st0, 0)
      else
        match fitTransform cfg o R st0.svc
            (st0.ideas.map (fun i => i.embedding)) st0.rng with
        | ((svc1, g1), .error _) =>
            ({ st0 with svc := svc1, rng := g1 }, 1)
        | ((svc1, g1), .ok result) =>
            ({ st0 with
                ideas := applyFitAux result.coordinates
                  result.cluster_labels 0 st0.ideas
                last_clustered_idea_count := st0.ideas.length
                svc := svc1
                rng := g1 }, 1)
    ({ body.1 with recluster_in_progress := false }, body.2)

/-- One submission together with the background task it spawned (if any),
run to completion; the second component counts all `fit_transform`
executions of the combined flow. -/
def createIdeaWithTask {S U K : Type} (cfg : Settings) (o : MLOracle U K)
    (R : Rng S) (st : SessionState S U K) (uid nid : ℕ) (e : Emb) :
    SessionState S U K × ℕ :=
  match createIdea cfg o R st uid nid e with
  | (st1, .error _) => (st1, 0)
  | (st1, .ok r) =>
      if r.recluster_scheduled then
        let p := fullRecluster cfg o R st1
        (p.1, r.fit_calls + p.2)
      else (st1, r.fit_calls)

/-- The session states reachable through the ingestion pipeline: a fresh
session (no ideas, watermark 0, fresh never-fitted service, no re-cluster
in flight, any generator state and session settings), closed under
submissions (successful or failed) and background re-clusters.  Explicit
idea deletion is an external concern per the spec's data model. -/
inductive Reachable {S U K : Type} (cfg : Settings) (o : MLOracle U K)
    (R : Rng S) : SessionState S U K → Prop where
  | init (pen : Bool) (nn : ℕ) (md : ℝ) (rs : ℕ) (fcc : Option ℕ) (g : S) :
      Reachable cfg o R ⟨[], 0, pen, ⟨nn, md, rs, fcc, none, none⟩, false, g⟩
  | create {st : SessionState S U K} (uid nid : ℕ) (e : Emb) :
      Reachable cfg o R st →
      Reachable cfg o R (createIdea cfg o R st uid nid e).1
  | refit {st : SessionState S U K} :
      Reachable cfg o R st → Reachable cfg o R (fullRecluster cfg o R st).1

end

/-! ## Interleaving model of concurrent `full_recluster_session` calls

ideas.py runs on asyncio: tasks interleave only at `await` points.  For one
session, each invocation of `full_recluster_session` consists of
 * an atomic entry (lines 476–481 contain no `await`): either the session
   is already in `_recluster_in_progress` and the call returns at once
   (`drop`), or the session is added to the set and the body starts
   (`acquire`, which is the invocation that will execute the fit);
 * the body with its `await`s, after which the `finally` removes the
   session from the set, whether the body succeeded or raised (`finish`).
A state records the per-session in-progress membership, each invocation's
program counter, and the number of fit executions started. -/

/-- Program counter of one `full_recluster_session` invocation. -/
inductive RPc where
  | ini
  | running
  | dropped
  | done (ok : Bool)
deriving DecidableEq

/-- Interleaving state: the session's `_recluster_in_progress` membership,
one program counter per invocation, and the count of fits started. -/
structure RSt where
  flag : Bool
  pcs : List RPc
  fits : ℕ

/-- Initial state: `n` invocations about to enter, session not in the
in-progress set, no fit started. -/
def initRSt (n : ℕ) : RSt := ⟨false, List.replicate n RPc.ini, 0⟩

/-- One atomic step of the interleaving. -/
inductive RStep : RSt → RSt → Prop where
  | drop (s : RSt) (i : ℕ) (hpc : s.pcs.get? i = some RPc.ini)
      (hf : s.flag = true) :
      RStep s ⟨s.flag, s.pcs.set i RPc.dropped, s.fits⟩
  | acquire (s : RSt) (i : ℕ) (hpc : s.pcs.get? i = some RPc.ini)
      (hf : s.flag = false) :
      RStep s ⟨true, s.pcs.set i RPc.running, s.fits + 1⟩
  | finish (s : RSt) (i : ℕ) (ok : Bool)
      (hpc : s.pcs.get? i = some RPc.running) :
      RStep s ⟨false, s.pcs.set i (RPc.done ok), s.fits⟩

/-- Reachability of the interleaving. -/
def RReach : RSt → RSt → Prop := Relation.ReflTransGen RStep

/-- Number of invocations currently executing the re-fit body. -/
def countRunning (pcs : List RPc) : ℕ :=
  pcs.countP (fun p => decide (p = RPc.running))

/-! ## Concrete external instances used by witnesses -/

noncomputable section

/-- A trivial generator: seeding is a no-op and every draw returns the lower
bound (which lies in [lo, hi)). -/
def trivRng : Rng Unit where
  seed := fun _ => ()
  uniform := fun s lo _ => (lo, s)
  uniform_mem := fun _ _ _ h => ⟨le_refl _, h⟩

/-- A trivial ML oracle: UMAP places everything at the origin, KMeans puts
everything in cluster 0, and hull computation always raises (as scipy does
on the degenerate all-equal inputs this oracle produces). -/
def trivOracle : MLOracle Unit Unit where
  umapNew := fun _ _ _ => ()
  umapFitTransform := fun _ embs => .ok (embs.map (fun _ => ((0 : ℝ), (0 : ℝ))))
  umapTransform := fun _ _ => (0, 0)
  kmeansNew := fun _ _ => ()
  kmeansFitPredict := fun _ coords => .ok (coords.map (fun _ => 0))
  kmeansPredict := fun _ _ => 0
  hull := fun _ => .error "QhullError"

/-- An oracle whose UMAP fit always raises (numerically degenerate data). -/
def failOracle : MLOracle Unit Unit :=
  { trivOracle with umapFitTransform := fun _ _ => .error "degenerate" }

/-- A fresh, never-fitted `ClusteringService` with the default constructor
arguments of clustering.py (n_neighbors 50, min_dist 0.3, random_state 42). -/
def svcFresh : ClusteringSvc Unit Unit := ⟨50, 0.3, 42, none, none, none⟩

end

/-! ## Claim C2 -/

section
noncomputable section

/-- C2, as stated, is false of the scorer: `min_distance_transform` on an
empty similarity array returns 50 (its own docstring and unit test agree),
not the maximum 100; equivalently the pipeline's scorer instance returns 50
when handed an empty set of existing vectors. -/
theorem c2_counterexample :
    min_distance_transform [] = 50
    ∧ novelty_scorer.calculate_score [1] [] = .ok 50
    ∧ (50 : ℝ) ≠ 100 := by
  refine ⟨by simp [min_distance_transform], ?_, by norm_num⟩
  simp [NoveltyScorer.calculate_score, novelty_scorer, min_distance_transform]

/-- C2 amended: the ingestion pipeline's novelty operation
(`_calculate_novelty_and_closest`) short-circuits an empty session to the
maximum score 100, so the first idea ever submitted to an empty session
scores 100; but the scorer itself (`min_distance_transform`, also through
`NoveltyScorer.calculate_score`) returns the neutral default 50 on an empty
set of existing vectors. -/
theorem c2_empty_session_scores :
    (∀ (e : Emb) (uid : ℕ) (p : Bool),
      calcNoveltyAndClosest e [] uid p = .ok (100, none))
    ∧ min_distance_transform [] = 50
    ∧ (∀ e : Emb, novelty_scorer.calculate_score e [] = .ok 50) := by
  refine ⟨fun e uid p => by simp [calcNoveltyAndClosest],
    by simp [min_distance_transform], fun e => ?_⟩
  simp [NoveltyScorer.calculate_score, novelty_scorer, min_distance_transform]

end
end

/-! ## Claim C7 -/

section
noncomputable section

/-- C7: on a non-empty set of existing vectors of the right dimension, the
pipeline's scorer (NoveltyScorer with `min_distance_transform`) returns
`min(100, (min_i (1 - sim_i))^1.5 * 300)` over the cosine similarities, and
that value always lies in [0, 100]. -/
theorem c7_default_scorer_formula_and_bounds (e : Emb) (existing : List Emb)
    (hne : existing ≠ [])
    (hdim : ∀ v ∈ existing, v.length = e.length) :
    novelty_scorer.calculate_score e existing =
      .ok (min 100 (listMin ((existing.map (fun v => cosineSim e v)).map
        (fun s => 1 - s)) ^ (1.5 : ℝ) * 300))
    ∧ 0 ≤ min 100 (listMin ((existing.map (fun v => cosineSim e v)).map
        (fun s => 1 - s)) ^ (1.5 : ℝ) * 300)
    ∧ min 100 (listMin ((existing.map (fun v => cosineSim e v)).map
        (fun s => 1 - s)) ^ (1.5 : ℝ) * 300) ≤ 100 := by
  have hmin : 0 ≤ listMin ((existing.map (fun v => cosineSim e v)).map
      (fun s => 1 - s)) := by
    apply listMin_nonneg
    intro x hx
    simp only [List.mem_map] at hx
    obtain ⟨s, hs, rfl⟩ := hx
    obtain ⟨v, _, rfl⟩ := hs
    have := cosineSim_le_one e v
    linarith
  have hval : 0 ≤ min 100 (listMin ((existing.map (fun v => cosineSim e v)).map
      (fun s => 1 - s)) ^ (1.5 : ℝ) * 300) :=
    le_min (by norm_num)
      (mul_nonneg (Real.rpow_nonneg hmin _) (by norm_num))
  refine ⟨?_, hval, min_le_left _ _⟩
  cases existing with
  | nil => exact absurd rfl hne
  | cons v rest =>
      have hv : v.length = e.length := hdim v (by simp)
      simp only [NoveltyScorer.calculate_score, novelty_scorer]
      rw [if_neg (by simp [hv])]
      simp only [min_distance_transform]
      rw [if_neg (by simp)]

/-- C7 witness: one existing orthogonal unit vector of matching dimension. -/
theorem c7_witness :
    novelty_scorer.calculate_score [(1 : ℝ), 0] [[(0 : ℝ), 1]] =
      .ok (min 100 (listMin (([[(0 : ℝ), 1]].map
        (fun v => cosineSim [(1 : ℝ), 0] v)).map
        (fun s => 1 - s)) ^ (1.5 : ℝ) * 300))
    ∧ 0 ≤ min 100 (listMin (([[(0 : ℝ), 1]].map
        (fun v => cosineSim [(1 : ℝ), 0] v)).map
        (fun s => 1 - s)) ^ (1.5 : ℝ) * 300)
    ∧ min 100 (listMin (([[(0 : ℝ), 1]].map
        (fun v => cosineSim [(1 : ℝ), 0] v)).map
        (fun s => 1 - s)) ^ (1.5 : ℝ) * 300) ≤ 100 :=
  c7_default_scorer_formula_and_bounds [1, 0] [[0, 1]]
    (List.cons_ne_nil _ _) (by intro v hv; simp only [List.mem_singleton] at hv; simp [hv])

end
end

/-! ## Claim C9 -/

section
noncomputable section

/-- C9: `compute_convex_hull` returns all points verbatim below 3 points;
when scipy's hull computation raises (degenerate input: collinear or
duplicate points) it falls back to all input points; it never raises (it is
a total function); and on success with 3 or more points it returns the
hull's vertices, in scipy's hull order, read off the input coordinates. -/
theorem c9_convex_hull_fallback {U K : Type} (o : MLOracle U K)
    (coordinates : List (ℝ × ℝ)) :
    (coordinates.length < 3 → compute_convex_hull o coordinates = coordinates)
    ∧ (∀ msg, o.hull coordinates = .error msg →
        compute_convex_hull o coordinates = coordinates)
    ∧ (∀ vertices, 3 ≤ coordinates.length →
        o.hull coordinates = .ok vertices →
        compute_convex_hull o coordinates =
          vertices.map (fun i => coordinates.getD i (0, 0))) := by
  refine ⟨fun h => ?_, fun msg hmsg => ?_, fun vertices hlen hok => ?_⟩
  · simp [compute_convex_hull, h]
  · unfold compute_convex_hull
    split
    · rfl
    · rw [hmsg]
  · unfold compute_convex_hull
    rw [if_neg (not_lt.mpr hlen), hok]

/-- C9 witness: three collinear points on which the hull oracle raises, and
a single point (fewer than 3). -/
theorem c9_witness :
    compute_convex_hull failOracle [((0 : ℝ), (0 : ℝ)), (1, 1), (2, 2)] =
      [((0 : ℝ), (0 : ℝ)), (1, 1), (2, 2)]
    ∧ compute_convex_hull failOracle [((5 : ℝ), (5 : ℝ))] =
      [((5 : ℝ), (5 : ℝ))] :=
  ⟨(c9_convex_hull_fallback failOracle _).2.1 "QhullError" rfl,
    (c9_convex_hull_fallback failOracle _).1 (by decide)⟩

end
end

/-! ## Claim C10 -/

section
noncomputable section

/-- C10: calling `transform` before any successful fit (umap_model is None)
never raises — it is a total function whose fallback returns a coordinate
inside [-10, 10] × [-10, 10]; and because the fallback re-seeds the global
generator with the service's fixed `random_state` on every call, any two
such calls on services sharing a `random_state` return the identical
coordinate pair, regardless of the incoming generator states or
embeddings. -/
theorem c10_unfitted_transform_deterministic_bounded {S U K : Type}
    (o : MLOracle U K) (R : Rng S) (svc1 svc2 : ClusteringSvc U K)
    (g1 g2 : S) (e1 e2 : Emb)
    (h1 : svc1.umap_model = none) (h2 : svc2.umap_model = none)
    (hrs : svc1.random_state = svc2.random_state) :
    (svc1.transform o R g1 e1).1 = (svc2.transform o R g2 e2).1
    ∧ -10 ≤ (svc1.transform o R g1 e1).1.1
    ∧ (svc1.transform o R g1 e1).1.1 ≤ 10
    ∧ -10 ≤ (svc1.transform o R g1 e1).1.2
    ∧ (svc1.transform o R g1 e1).1.2 ≤ 10 := by
  have hx := R.uniform_mem (R.seed svc1.random_state) (-10) 10 (by norm_num)
  have hy := R.uniform_mem
    (R.uniform (R.seed svc1.random_state) (-10) 10).2 (-10) 10 (by norm_num)
  constructor
  · simp only [ClusteringSvc.transform, h1, h2, hrs]
  · simp only [ClusteringSvc.transform, h1, generateRandomCoordinates, drawN]
    refine ⟨hx.1, le_of_lt hx.2, hy.1, le_of_lt hy.2⟩

/-- C10 witness: two fresh services, different incoming generator states
cannot be exhibited over `Unit`, but the embeddings differ; the fallback
coordinate is the pair of draws after seeding. -/
theorem c10_witness :
    (svcFresh.transform trivOracle trivRng () [1]).1 =
      (svcFresh.transform trivOracle trivRng () [2, 3]).1
    ∧ -10 ≤ (svcFresh.transform trivOracle trivRng () [1]).1.1
    ∧ (svcFresh.transform trivOracle trivRng () [1]).1.1 ≤ 10
    ∧ -10 ≤ (svcFresh.transform trivOracle trivRng () [1]).1.2
    ∧ (svcFresh.transform trivOracle trivRng () [1]).1.2 ≤ 10 :=
  c10_unfitted_transform_deterministic_bounded trivOracle trivRng
    svcFresh svcFresh () () [1] [2, 3] rfl rfl rfl

end
end

/-! ## Claim C8 -/

section
noncomputable section

theorem except_map_proj {α β : Type} (x : Except String α) (f : α → β)
    (k : β) (h : ∀ r, x = .ok r → f r = k) :
    x.map f = x.map (fun _ => k) := by
  cases x with
  | error e => rfl
  | ok r => simpa [Except.map] using h r rfl

/-- Every successful fit at or above the threshold reports the
`_calculate_n_clusters` heuristic as its cluster count. -/
theorem fitTransform_n_clusters {S U K : Type} {cfg : Settings}
    {o : MLOracle U K} {R : Rng S} {svc : ClusteringSvc U K}
    {embeddings : List Emb} {g : S} {r : ClusteringResult}
    (hn : cfg.min_ideas_for_clustering ≤ embeddings.length)
    (hr : (fitTransform cfg o R svc embeddings g).2 = .ok r) :
    r.n_clusters = calcNClusters cfg svc.fixed_cluster_count
      embeddings.length := by
  unfold fitTransform at hr
  rw [if_neg (not_lt.mpr hn)] at hr
  simp only [] at hr
  split at hr
  · simp at hr
  · split at hr
    · simp at hr
    · simp only [Except.ok.injEq] at hr
      subst hr
      rfl

/-- C8: for every fit over `n` embeddings at or above the clustering
threshold, whenever the fit succeeds its cluster count is
`min(max(5, ceil(n^(1/3))), max_clusters)` without a fixed override and
`max(2, min(override, n))` with one (stated as an equality of `Except`
values so that a raising fit satisfies it vacuously). -/
theorem c8_cluster_count_heuristic {S U K : Type} (cfg : Settings)
    (o : MLOracle U K) (R : Rng S) (svc : ClusteringSvc U K)
    (embeddings : List Emb) (g : S)
    (hn : cfg.min_ideas_for_clustering ≤ embeddings.length) :
    ((fitTransform cfg o R svc embeddings g).2).map (fun r => r.n_clusters)
      = ((fitTransform cfg o R svc embeddings g).2).map (fun _ =>
          match svc.fixed_cluster_count with
          | some f => max 2 (min f embeddings.length)
          | none => min (max 5 (Nat.ceil ((embeddings.length : ℝ) ^
              ((1 : ℝ) / 3)))) cfg.max_clusters) := by
  apply except_map_proj
  intro r hr
  rw [fitTransform_n_clusters hn hr]
  unfold calcNClusters
  cases svc.fixed_cluster_count with
  | none => rw [if_neg (not_lt.mpr hn)]
  | some f => rfl

/-- C8 witness: two embeddings with the threshold lowered to 2 (the config
validators allow any positive threshold at or below the interval). -/
theorem c8_witness :
    ((fitTransform ⟨2, 2, 20⟩ trivOracle trivRng svcFresh
        [[(1 : ℝ), 0], [0, 1]] ()).2).map (fun r => r.n_clusters)
      = ((fitTransform ⟨2, 2, 20⟩ trivOracle trivRng svcFresh
          [[(1 : ℝ), 0], [0, 1]] ()).2).map (fun _ =>
            match svcFresh.fixed_cluster_count with
            | some f => max 2 (min f 2)
            | none => min (max 5 (Nat.ceil (((2 : ℕ) : ℝ) ^
                ((1 : ℝ) / 3)))) 20) :=
  c8_cluster_count_heuristic ⟨2, 2, 20⟩ trivOracle trivRng svcFresh
    [[(1 : ℝ), 0], [0, 1]] () (by decide)

end
end

/-! ## Claim C3 -/

section

theorem countP_set_balance (p : RPc → Bool) :
    ∀ (l : List RPc) (i : ℕ) (a b : RPc), l.get? i = some b →
      (l.set i a).countP p + (if p b then 1 else 0)
        = l.countP p + (if p a then 1 else 0) := by
  intro l
  induction l with
  | nil => intro i a b h; simp at h
  | cons x xs ih =>
      intro i a b h
      cases i with
      | zero =>
          simp only [List.get?_cons_zero, Option.some.injEq] at h
          subst h
          simp only [List.set_cons_zero, List.countP_cons]
          omega
      | succ j =>
          simp only [List.get?_cons_succ] at h
          simp only [List.set_cons_succ, List.countP_cons]
          have := ih j a b h
          omega

theorem countP_replicate_ini (p : RPc → Bool) (hp : p RPc.ini = false) :
    ∀ n, (List.replicate n RPc.ini).countP p = 0 := by
  intro n
  induction n with
  | zero => simp
  | succ m ih => simp [List.replicate_succ, List.countP_cons, ih, hp]

/-- The mutual-exclusion invariant: the number of invocations executing the
re-fit body is 1 when the session is marked in progress and 0 otherwise. -/
def rinv (s : RSt) : Prop :=
  countRunning s.pcs = if s.flag then 1 else 0

theorem rinv_step {s t : RSt} (h : RStep s t) (hs : rinv s) : rinv t := by
  cases h with
  | drop i hpc hf =>
      unfold rinv countRunning at *
      show List.countP (fun p => decide (p = RPc.running))
        (s.pcs.set i RPc.dropped) = if s.flag = true then 1 else 0
      have hbal := countP_set_balance (fun p => decide (p = RPc.running))
        s.pcs i RPc.dropped RPc.ini hpc
      simp at hbal
      omega
  | acquire i hpc hf =>
      unfold rinv countRunning at *
      rw [hf] at hs
      simp only [Bool.false_eq_true, if_false] at hs
      show List.countP (fun p => decide (p = RPc.running))
        (s.pcs.set i RPc.running) = 1
      have hbal := countP_set_balance (fun p => decide (p = RPc.running))
        s.pcs i RPc.running RPc.ini hpc
      simp at hbal
      omega
  | finish i ok hpc =>
      unfold rinv countRunning at *
      show List.countP (fun p => decide (p = RPc.running))
        (s.pcs.set i (RPc.done ok)) = 0
      have hbal := countP_set_balance (fun p => decide (p = RPc.running))
        s.pcs i (RPc.done ok) RPc.running hpc
      simp at hbal
      have hpos : 0 < List.countP (fun p => decide (p = RPc.running)) s.pcs :=
        List.countP_pos_iff.mpr ⟨RPc.running, List.get?_mem hpc, by simp⟩
      rcases Bool.eq_false_or_eq_true s.flag with hfl | hfl <;> rw [hfl] at hs
      · rw [if_pos rfl] at hs
        omega
      · rw [if_neg (by simp)] at hs
        omega

theorem rinv_reach {n : ℕ} {s : RSt} (h : RReach (initRSt n) s) : rinv s := by
  induction h with
  | refl =>
      unfold rinv initRSt countRunning
      simp [countP_replicate_ini]
  | tail _ hstep ih => exact rinv_step hstep ih

/-- C3: (1) in every state reachable from `n` pending
`full_recluster_session` invocations for one session, at most one is
executing the re-fit body; (2) while the in-progress mark is set, a step
never starts a new fit (the fit-start counter is unchanged — in particular
a request arriving then is dropped, not queued); (3) whenever an invocation
terminates its body, successfully or not, the step that retires it clears
the in-progress mark. -/
theorem c3_single_refit_in_flight :
    (∀ (n : ℕ) (s : RSt), RReach (initRSt n) s → countRunning s.pcs ≤ 1)
    ∧ (∀ (s t : RSt), RStep s t → s.flag = true → t.fits = s.fits)
    ∧ (∀ (s t : RSt) (i : ℕ) (ok : Bool), RStep s t →
        s.pcs.get? i = some RPc.running →
        t.pcs.get? i = some (RPc.done ok) → t.flag = false) := by
  refine ⟨fun n s h => ?_, fun s t hst hf => ?_, fun s t i ok hst hi hi2 => ?_⟩
  · have := rinv_reach h
    unfold rinv at this
    rw [this]
    split <;> omega
  · cases hst with
    | drop i hpc hf2 => rfl
    | acquire i hpc hf2 => rw [hf2] at hf; exact absurd hf (by simp)
    | finish i ok hpc => rfl
  · cases hst with
    | drop j hpc hf2 =>
        by_cases hij : j = i
        · subst hij; rw [List.get?_set_eq] at hi2; rw [hpc] at hi2; simp at hi2
        · rw [List.get?_set_ne _ _ hij] at hi2
          rw [hi] at hi2
          simp at hi2
    | acquire j hpc hf2 =>
        by_cases hij : j = i
        · subst hij; rw [hpc] at hi; simp at hi
        · rw [List.get?_set_ne _ _ hij] at hi2
          rw [hi] at hi2
          simp at hi2
    | finish j ok2 hpc => rfl

/-- C3 witness: two concurrent invocations; the first acquires the mark and
the second, arriving while the first is in flight, is dropped; in the
resulting state at most one body is executing (and the trace started
exactly one fit). -/
theorem c3_witness :
    countRunning (((List.replicate 2 RPc.ini).set 0 RPc.running).set 1
      RPc.dropped) ≤ 1 :=
  c3_single_refit_in_flight.1 2
    ⟨true, ((List.replicate 2 RPc.ini).set 0 RPc.running).set 1 RPc.dropped, 1⟩
    (Relation.ReflTransGen.tail
      (Relation.ReflTransGen.tail Relation.ReflTransGen.refl
        (RStep.acquire (initRSt 2) 0 rfl rfl))
      (RStep.drop ⟨true, (List.replicate 2 RPc.ini).set 0 RPc.running, 1⟩ 1
        rfl rfl))

end

/-! ## Claim C4 -/

section
noncomputable section

/-- Unfolding of `fullRecluster` in the qualifying situation (no re-cluster
already in flight, enough ideas): it reduces to a case split on the fit
outcome, with the in-progress mark clear again on both exits. -/
theorem fullRecluster_eq {S U K : Type} (cfg : Settings) (o : MLOracle U K)
    (R : Rng S) (st : SessionState S U K)
    (hflag : st.recluster_in_progress = false)
    (hn : cfg.min_ideas_for_clustering ≤ st.ideas.length) :
    fullRecluster cfg o R st =
      match fitTransform cfg o R st.svc
          (st.ideas.map (fun i => i.embedding)) st.rng with
      | ((svc1, g1), .error _) =>
          ({ st with
              svc := svc1
              rng := g1
              recluster_in_progress := false }, 1)
      | ((svc1, g1), .ok result) =>
          ({ st with
              ideas :=
                applyFitAux result.coordinates result.cluster_labels 0 st.ideas
              last_clustered_idea_count := st.ideas.length
              svc := svc1
              rng := g1
              recluster_in_progress := false }, 1) := by
  unfold fullRecluster
  rw [if_neg (by simp [hflag])]
  simp only []
  rw [if_neg (not_lt.mpr hn)]
  rcases hft : fitTransform cfg o R st.svc
    (st.ideas.map (fun i => i.embedding)) st.rng with ⟨⟨svc1, g1⟩, res⟩
  rw [hft]
  cases res with
  | error msg => rfl
  | ok result => rfl

/-- C4: in the qualifying situation, a raising fit is contained inside the
background task — `fullRecluster` still returns a state (no exception
escapes), with the watermark and all idea rows unchanged; the watermark is
advanced, to the idea count at fit time, exactly when the fit succeeds. -/
theorem c4_refit_failure_contained {S U K : Type} (cfg : Settings)
    (o : MLOracle U K) (R : Rng S) (st : SessionState S U K)
    (hflag : st.recluster_in_progress = false)
    (hn : cfg.min_ideas_for_clustering ≤ st.ideas.length) :
    (∀ msg, (fitTransform cfg o R st.svc
        (st.ideas.map (fun i => i.embedding)) st.rng).2 = .error msg →
      (fullRecluster cfg o R st).1.last_clustered_idea_count
          = st.last_clustered_idea_count
        ∧ (fullRecluster cfg o R st).1.ideas = st.ideas
        ∧ (fullRecluster cfg o R st).1.recluster_in_progress = false)
    ∧ (∀ res, (fitTransform cfg o R st.svc
        (st.ideas.map (fun i => i.embedding)) st.rng).2 = .ok res →
      (fullRecluster cfg o R st).1.last_clustered_idea_count
          = st.ideas.length
        ∧ (fullRecluster cfg o R st).1.recluster_in_progress = false) := by
  rw [fullRecluster_eq cfg o R st hflag hn]
  rcases hft : fitTransform cfg o R st.svc
    (st.ideas.map (fun i => i.embedding)) st.rng with ⟨⟨svc1, g1⟩, res⟩
  refine ⟨fun msg hmsg => ?_, fun result hres => ?_⟩
  · rw [hft] at hmsg ⊢
    simp only [] at hmsg
    subst hmsg
    exact ⟨rfl, rfl, rfl⟩
  · rw [hft] at hres ⊢
    simp only [] at hres
    subst hres
    exact ⟨rfl, rfl⟩

/-- C4 witness: a session of two ideas (threshold 2) whose fit raises: the
watermark stays 0, the rows are untouched and the in-progress mark is
clear. -/
theorem c4_witness :
    (fullRecluster ⟨2, 2, 20⟩ failOracle trivRng
        ⟨[⟨1, 5, [(0 : ℝ), 1], 0, 0, none, 0, none⟩,
          ⟨2, 6, [(1 : ℝ), 0], 0, 0, none, 0, none⟩], 0, true, svcFresh,
          false, ()⟩).1.last_clustered_idea_count = 0
    ∧ (fullRecluster ⟨2, 2, 20⟩ failOracle trivRng
        ⟨[⟨1, 5, [(0 : ℝ), 1], 0, 0, none, 0, none⟩,
          ⟨2, 6, [(1 : ℝ), 0], 0, 0, none, 0, none⟩], 0, true, svcFresh,
          false, ()⟩).1.ideas =
        [⟨1, 5, [(0 : ℝ), 1], 0, 0, none, 0, none⟩,
          ⟨2, 6, [(1 : ℝ), 0], 0, 0, none, 0, none⟩]
    ∧ (fullRecluster ⟨2, 2, 20⟩ failOracle trivRng
        ⟨[⟨1, 5, [(0 : ℝ), 1], 0, 0, none, 0, none⟩,
          ⟨2, 6, [(1 : ℝ), 0], 0, 0, none, 0, none⟩], 0, true, svcFresh,
          false, ()⟩).1.recluster_in_progress = false :=
  (c4_refit_failure_contained ⟨2, 2, 20⟩ failOracle trivRng
      ⟨[⟨1, 5, [(0 : ℝ), 1], 0, 0, none, 0, none⟩,
        ⟨2, 6, [(1 : ℝ), 0], 0, 0, none, 0, none⟩], 0, true, svcFresh,
        false, ()⟩ rfl (by decide)).1 "degenerate" rfl

end
end

/-! ## Claim C5 -/

section
noncomputable section

theorem getD_set_self (L : List Idea) :
    ∀ (i : ℕ) (a : Idea), i < L.length →
      (L.set i a).getD i dummyIdea = a := by
  induction L with
  | nil => intro i a h; simp at h
  | cons x xs ih =>
      intro i a h
      cases i with
      | zero => rfl
      | succ j =>
          simp only [List.set_cons_succ, List.getD_cons_succ]
          exact ih j a (by simpa using h)

theorem set_author_map_embedding (L : List Idea) (u2 : ℕ) :
    ∀ i : ℕ,
      (L.set i { L.getD i dummyIdea with user_id := u2 }).map
          (fun x => x.embedding)
        = L.map (fun x => x.embedding) := by
  induction L with
  | nil => intro i; simp
  | cons x xs ih =>
      intro i
      cases i with
      | zero => simp [List.getD_cons_zero]
      | succ j =>
          simp only [List.set_cons_succ, List.getD_cons_succ, List.map_cons]
          rw [ih j]

/-- C5: with the self-similarity penalty on, when the closest (maximum
cosine similarity) existing idea was authored by the submitting user, the
score returned for persistence is exactly half of what the same submission
would have received had that closest idea belonged to any other author, all
else (embeddings, order, ids) equal.  Stated over the `Except` results so a
scorer error on both sides satisfies it trivially; the session's
`penalize_self_similarity` column is not in this tree and the spec applies
the penalty unconditionally, so the flag is fixed to true. -/
theorem c5_self_similarity_halves_score (e : Emb) (L : List Idea)
    (u u2 : ℕ) (hne : L ≠ []) (hu2 : u2 ≠ u)
    (hclosest : (L.getD (argmaxIdx (L.map (fun i => cosineSim e i.embedding)))
      dummyIdea).user_id = u) :
    (calcNoveltyAndClosest e L u true).map (fun p => p.1)
      = (calcNoveltyAndClosest e
          (L.set (argmaxIdx (L.map (fun i => cosineSim e i.embedding)))
            { L.getD (argmaxIdx (L.map (fun i => cosineSim e i.embedding)))
                dummyIdea with user_id := u2 })
          u true).map (fun p => p.1 * 0.5) := by
  set i := argmaxIdx (L.map (fun idea => cosineSim e idea.embedding)) with hi
  set L' := L.set i
    { L.getD i dummyIdea with user_id := u2 } with hL'
  have hlen : L'.length = L.length := by rw [hL']; exact List.length_set ..
  have hilt : i < L.length := by
    rw [hi]
    have := argmaxIdx_lt_length
      (l := L.map (fun idea => cosineSim e idea.embedding)) (by simpa using hne)
    simpa using this
  have hemb : L'.map (fun x => x.embedding) = L.map (fun x => x.embedding) := by
    rw [hL']; exact set_author_map_embedding L u2 i
  have hsims : L'.map (fun idea => cosineSim e idea.embedding)
      = L.map (fun idea => cosineSim e idea.embedding) := by
    have h1 : L'.map (fun idea => cosineSim e idea.embedding)
        = (L'.map (fun x => x.embedding)).map (fun v => cosineSim e v) := by
      rw [List.map_map]; rfl
    have h2 : L.map (fun idea => cosineSim e idea.embedding)
        = (L.map (fun x => x.embedding)).map (fun v => cosineSim e v) := by
      rw [List.map_map]; rfl
    rw [h1, h2, hemb]
  have hclosest2 : (L'.getD i dummyIdea).user_id = u2 := by
    rw [hL', getD_set_self L i _ hilt]
  unfold calcNoveltyAndClosest
  rw [if_neg (by simp [hne]), if_neg (by rw [hlen]; simp [hne])]
  simp only [hsims, ← hi, hemb]
  cases hsc : novelty_scorer.calculate_score e
      (L.map (fun x => x.embedding)) with
  | error msg => rfl
  | ok score =>
      simp only []
      rw [if_pos ⟨trivial, hclosest⟩, if_neg ?_]
      · simp [Except.map]
      · intro hcon
        exact hu2 (hclosest2 ▸ hcon.2)

/-- The single existing idea used by the C5 witness (authored by user 5). -/
def c5Idea : Idea := ⟨3, 5, [(0 : ℝ), 1], 0, 0, none, 0, none⟩

/-- C5 witness: one existing idea by user 5; the same submission by user 5
scores exactly half of what it scores when that idea's author is 7. -/
theorem c5_witness :
    (calcNoveltyAndClosest [(1 : ℝ), 0] [c5Idea] 5 true).map (fun p => p.1)
      = (calcNoveltyAndClosest [(1 : ℝ), 0]
          ([c5Idea].set
            (argmaxIdx ([c5Idea].map
              (fun i => cosineSim [(1 : ℝ), 0] i.embedding)))
            { [c5Idea].getD
                (argmaxIdx ([c5Idea].map
                  (fun i => cosineSim [(1 : ℝ), 0] i.embedding)))
                dummyIdea with user_id := 7 })
          5 true).map (fun p => p.1 * 0.5) :=
  c5_self_similarity_halves_score [(1 : ℝ), 0] [c5Idea] 5 7
    (List.cons_ne_nil _ _) (by decide) rfl

end
end

/-! ## Claim C6 -/

section
noncomputable section

theorem applyFitAux_length (c : List (ℝ × ℝ)) (l : List ℕ) :
    ∀ (ideas : List Idea) (k : ℕ),
      (applyFitAux c l k ideas).length = ideas.length := by
  intro ideas
  induction ideas with
  | nil => intro k; rfl
  | cons x xs ih =>
      intro k
      simp only [applyFitAux, List.length_cons, ih]

/-- Case analysis of the rows after one `create_idea` call: the rows are
unchanged (scorer error, or a raising first fit), or the new row is appended
with `cluster_id = None` in the bootstrap branch, or the first fit rewrote
every row and appended the new one, or (at or past the threshold) the new
row is appended with some cluster id. -/
theorem createIdea_ideas_shape {S U K : Type} (cfg : Settings)
    (o : MLOracle U K) (R : Rng S) (st : SessionState S U K)
    (uid nid : ℕ) (e : Emb) :
    (createIdea cfg o R st uid nid e).1.ideas = st.ideas
    ∨ (∃ x y s c, st.ideas.length < cfg.min_ideas_for_clustering - 1 ∧
        (createIdea cfg o R st uid nid e).1.ideas
          = st.ideas ++ [⟨nid, uid, e, x, y, none, s, c⟩])
    ∨ (∃ res x y cid s c,
        st.ideas.length = cfg.min_ideas_for_clustering - 1 ∧
        (createIdea cfg o R st uid nid e).1.ideas
          = applyFitAux (ClusteringResult.coordinates res)
              (ClusteringResult.cluster_labels res) 0 st.ideas
            ++ [⟨nid, uid, e, x, y, some cid, s, c⟩])
    ∨ (∃ x y cid s c, cfg.min_ideas_for_clustering - 1 < st.ideas.length ∧
        (createIdea cfg o R st uid nid e).1.ideas
          = st.ideas ++ [⟨nid, uid, e, x, y, some cid, s, c⟩]) := by
  unfold createIdea
  cases hnc : calcNoveltyAndClosest e st.ideas uid
      st.penalize_self_similarity with
  | error msg => left; rfl
  | ok nc =>
      simp only []
      by_cases h1 : st.ideas.length < cfg.min_ideas_for_clustering - 1
      · rw [if_pos h1]
        right; left
        exact ⟨_, _, _, _, h1, rfl⟩
      · rw [if_neg h1]
        by_cases h2 : st.ideas.length = cfg.min_ideas_for_clustering - 1
        · rw [if_pos h2]
          rcases hft : fitTransform cfg o R st.svc
              (st.ideas.map (fun i => i.embedding) ++ [e]) st.rng
            with ⟨⟨svc1, g1⟩, res⟩
          cases res with
          | error msg => left; rfl
          | ok result =>
              right; right; left
              exact ⟨result, _, _, _, _, _, h2, rfl⟩
        · rw [if_neg h2]
          have h3 : cfg.min_ideas_for_clustering - 1 < st.ideas.length := by
            omega
          cases hm : st.svc.umap_model with
          | none =>
              right; right; right
              exact ⟨_, _, _, _, _, h3, rfl⟩
          | some m =>
              right; right; right
              exact ⟨_, _, _, _, _, h3, rfl⟩

/-- A submission with all cluster ids unset keeps them unset as long as the
row count stays below the threshold. -/
theorem createIdea_preserves_unclustered {S U K : Type} (cfg : Settings)
    (o : MLOracle U K) (R : Rng S) (st : SessionState S U K)
    (uid nid : ℕ) (e : Emb)
    (hT : 1 ≤ cfg.min_ideas_for_clustering)
    (hall : ∀ idea ∈ st.ideas, idea.cluster_id = none)
    (hlt : (createIdea cfg o R st uid nid e).1.ideas.length
      < cfg.min_ideas_for_clustering) :
    ∀ idea ∈ (createIdea cfg o R st uid nid e).1.ideas,
      idea.cluster_id = none := by
  rcases createIdea_ideas_shape cfg o R st uid nid e with
    h | ⟨x, y, s, c, hb, h⟩ | ⟨res, x, y, cid, s, c, hb, h⟩ |
    ⟨x, y, cid, s, c, hb, h⟩
  · rw [h]; exact hall
  · rw [h]
    intro idea hidea
    rcases List.mem_append.mp hidea with hin | hnew
    · exact hall idea hin
    · simp only [List.mem_singleton] at hnew
      subst hnew
      rfl
  · exfalso
    rw [h] at hlt
    simp only [List.length_append, applyFitAux_length,
      List.length_singleton] at hlt
    omega
  · exfalso
    rw [h] at hlt
    simp only [List.length_append, List.length_singleton] at hlt
    omega

/-- The background task `full_recluster_session` never changes the number
of idea rows. -/
theorem fullRecluster_ideas_length {S U K : Type} (cfg : Settings)
    (o : MLOracle U K) (R : Rng S) (st : SessionState S U K) :
    (fullRecluster cfg o R st).1.ideas.length = st.ideas.length := by
  unfold fullRecluster
  split
  · rfl
  · simp only []
    split
    · rfl
    · rcases hft : fitTransform cfg o R st.svc
          (st.ideas.map (fun i => i.embedding)) st.rng
        with ⟨⟨svc1, g1⟩, res⟩
      rw [hft]
      cases res with
      | error msg => rfl
      | ok result => simp [applyFitAux_length]

/-- A background re-cluster keeps all cluster ids unset while the row count
is below the threshold (it early-returns without touching the rows). -/
theorem fullRecluster_preserves_unclustered {S U K : Type} (cfg : Settings)
    (o : MLOracle U K) (R : Rng S) (st : SessionState S U K)
    (hall : ∀ idea ∈ st.ideas, idea.cluster_id = none)
    (hlt : (fullRecluster cfg o R st).1.ideas.length
      < cfg.min_ideas_for_clustering) :
    ∀ idea ∈ (fullRecluster cfg o R st).1.ideas,
      idea.cluster_id = none := by
  have hlen := fullRecluster_ideas_length cfg o R st
  rw [hlen] at hlt
  unfold fullRecluster
  split
  · exact hall
  · simp only []
    split
    · exact hall
    · next hcond => exact absurd hlt hcond

/-- C6: below `T − 1` existing ideas (bootstrap phase), a successful
submission places the new idea inside [-10, 10] × [-10, 10] with
`cluster_id = None` and appends it without touching the other rows; and in
every session state reachable through the ingestion pipeline, while the
session holds fewer than `T` ideas every idea's `cluster_id` is `None`. -/
theorem c6_bootstrap_invariant {S U K : Type} (cfg : Settings)
    (o : MLOracle U K) (R : Rng S)
    (hT : 1 ≤ cfg.min_ideas_for_clustering) :
    (∀ (st : SessionState S U K) (uid nid : ℕ) (e : Emb)
        (st2 : SessionState S U K) (r : CreateResult),
      st.ideas.length < cfg.min_ideas_for_clustering - 1 →
      createIdea cfg o R st uid nid e = (st2, .ok r) →
      -10 ≤ r.x ∧ r.x ≤ 10 ∧ -10 ≤ r.y ∧ r.y ≤ 10 ∧ r.cluster_id = none ∧
        st2.ideas = st.ideas ++
          [⟨nid, uid, e, r.x, r.y, none, r.novelty_score, r.closest_idea_id⟩])
    ∧ (∀ st : SessionState S U K, Reachable cfg o R st →
        st.ideas.length < cfg.min_ideas_for_clustering →
        ∀ idea ∈ st.ideas, idea.cluster_id = none) := by
  constructor
  · intro st uid nid e st2 r hlt heq
    have hx := R.uniform_mem st.rng (-10) 10 (by norm_num)
    have hy := R.uniform_mem (R.uniform st.rng (-10) 10).2 (-10) 10
      (by norm_num)
    unfold createIdea at heq
    cases hnc : calcNoveltyAndClosest e st.ideas uid
        st.penalize_self_similarity with
    | error msg => rw [hnc] at heq; simp at heq
    | ok nc =>
        rw [hnc] at heq
        simp only [] at heq
        rw [if_pos hlt] at heq
        unfold finishCreate at heq
        simp only [Prod.mk.injEq, Except.ok.injEq] at heq
        obtain ⟨hst, hr⟩ := heq
        subst hr
        subst hst
        exact ⟨hx.1, le_of_lt hx.2, hy.1, le_of_lt hy.2, rfl, rfl⟩
  · intro st hreach
    induction hreach with
    | init pen nn md rs fcc g => intro _ idea h; simp at h
    | create uid nid e hprev ih =>
        intro hlt
        rcases createIdea_ideas_shape cfg o R _ uid nid e with
          h | ⟨x, y, s, c, hb, h⟩ | ⟨res, x, y, cid, s, c, hb, h⟩ |
          ⟨x, y, cid, s, c, hb, h⟩
        · rw [h] at hlt ⊢
          exact ih hlt
        · refine createIdea_preserves_unclustered cfg o R _ uid nid e hT
            (ih ?_) hlt
          omega
        · exfalso
          rw [h] at hlt
          simp only [List.length_append, applyFitAux_length,
            List.length_singleton] at hlt
          omega
        · exfalso
          rw [h] at hlt
          simp only [List.length_append, List.length_singleton] at hlt
          omega
    | refit hprev ih =>
        rename_i st0
        intro hlt
        have hlen := fullRecluster_ideas_length cfg o R st0
        exact fullRecluster_preserves_unclustered cfg o R st0
          (ih (by rw [hlen] at hlt; exact hlt)) hlt

/-- An empty fresh session (the `Reachable.init` shape) used by witnesses. -/
def emptySession : SessionState Unit Unit Unit :=
  ⟨[], 0, true, svcFresh, false, ()⟩

/-- C6 witness: the first submission to an empty session (threshold 2) gets
the fallback coordinate (-10, -10), no cluster id, and is appended alone. -/
theorem c6_witness :
    -10 ≤ (-10 : ℝ) ∧ (-10 : ℝ) ≤ 10 ∧ -10 ≤ (-10 : ℝ) ∧ (-10 : ℝ) ≤ 10
    ∧ (none : Option ℕ) = none
    ∧ ([⟨1, 7, [(1 : ℝ), 0], -10, -10, none, 100, none⟩] : List Idea)
        = [] ++ [⟨1, 7, [(1 : ℝ), 0], -10, -10, none, 100, none⟩] :=
  (c6_bootstrap_invariant ⟨2, 2, 20⟩ trivOracle trivRng (by decide)).1
    emptySession 7 1 [1, 0]
    ⟨[⟨1, 7, [(1 : ℝ), 0], -10, -10, none, 100, none⟩], 0, true, svcFresh,
      false, ()⟩
    ⟨-10, -10, none, 100, none, false, false, 0⟩ (by decide) rfl

end
end

/-! ## Claim C1 -/

section
noncomputable section

theorem applyFitAux_getD (c : List (ℝ × ℝ)) (l : List ℕ) :
    ∀ (ideas : List Idea) (k i : ℕ), i < ideas.length →
      (applyFitAux c l k ideas).getD i dummyIdea =
        { ideas.getD i dummyIdea with
            x := (c.getD (k + i) (0, 0)).1
            y := (c.getD (k + i) (0, 0)).2
            cluster_id := some (l.getD (k + i) 0) } := by
  intro ideas
  induction ideas with
  | nil => intro k i h; simp at h
  | cons a as ih =>
      intro k i h
      cases i with
      | zero => simp [applyFitAux]
      | succ j =>
          have hidx : k + (j + 1) = (k + 1) + j := by omega
          simp only [applyFitAux, List.getD_cons_succ]
          rw [ih (k + 1) j (by simpa using h), hidx]

/-- A successful fit at or above the threshold leaves a (fitted) UMAP model
installed in the service. -/
theorem fitTransform_ok_umap {S U K : Type} {cfg : Settings}
    {o : MLOracle U K} {R : Rng S} {svc svc1 : ClusteringSvc U K}
    {embeddings : List Emb} {g g1 : S} {res : ClusteringResult}
    (hn : cfg.min_ideas_for_clustering ≤ embeddings.length)
    (hfit : fitTransform cfg o R svc embeddings g = ((svc1, g1), .ok res)) :
    svc1.umap_model.isNone = false := by
  unfold fitTransform at hfit
  rw [if_neg (not_lt.mpr hn)] at hfit
  simp only [] at hfit
  split at hfit
  · simp only [Prod.mk.injEq] at hfit
    exact absurd hfit.2 (by simp)
  · split at hfit
    · simp only [Prod.mk.injEq] at hfit
      exact absurd hfit.2 (by simp)
    · simp only [Prod.mk.injEq] at hfit
      obtain ⟨⟨h1, h2⟩, h3⟩ := hfit
      rw [← h1]
      rfl

/-- C1 amended: the submission that brings the session to exactly `T` ideas
performs exactly one synchronous full fit over all `T` embeddings,
overwrites every existing idea's coordinates and cluster id with that fit's
output, appends the new idea, and reports `coordinates_recalculated = true`
— but `create_idea` itself leaves the `last_clustered_idea_count` watermark
unchanged; instead it schedules the background `full_recluster_session`
exactly when `clustering_interval ≤ T − watermark` (always, under the
default configuration where interval = threshold and the watermark is 0),
and only that background task — a second full fit — advances the watermark
to `T` (claim C4's theorem proves the advance). -/
theorem c1_first_fit_amended {S U K : Type} (cfg : Settings)
    (o : MLOracle U K) (R : Rng S) (st : SessionState S U K)
    (uid nid : ℕ) (e : Emb) (svc1 : ClusteringSvc U K) (g1 : S)
    (res : ClusteringResult) (nc : ℝ × Option ℕ)
    (hT : st.ideas.length + 1 = cfg.min_ideas_for_clustering)
    (hnc : calcNoveltyAndClosest e st.ideas uid st.penalize_self_similarity
      = .ok nc)
    (hfit : fitTransform cfg o R st.svc
        (st.ideas.map (fun i => i.embedding) ++ [e]) st.rng
      = ((svc1, g1), .ok res)) :
    (createIdea cfg o R st uid nid e).1.last_clustered_idea_count
        = st.last_clustered_idea_count
    ∧ ((createIdea cfg o R st uid nid e).2).map (fun r => r.fit_calls)
        = .ok 1
    ∧ ((createIdea cfg o R st uid nid e).2).map
        (fun r => r.coordinates_recalculated) = .ok true
    ∧ ((createIdea cfg o R st uid nid e).2).map
        (fun r => r.recluster_scheduled)
        = .ok (decide ((cfg.clustering_interval : ℤ)
            ≤ (cfg.min_ideas_for_clustering : ℤ)
              - (st.last_clustered_idea_count : ℤ)))
    ∧ (createIdea cfg o R st uid nid e).1.ideas.length
        = st.ideas.length + 1
    ∧ (∀ i, i < st.ideas.length →
        (createIdea cfg o R st uid nid e).1.ideas.getD i dummyIdea =
          { st.ideas.getD i dummyIdea with
              x := (res.coordinates.getD i (0, 0)).1
              y := (res.coordinates.getD i (0, 0)).2
              cluster_id := some (res.cluster_labels.getD i 0) }) := by
  have hlen : cfg.min_ideas_for_clustering
      ≤ (st.ideas.map (fun i => i.embedding) ++ [e]).length := by
    simp only [List.length_append, List.length_map, List.length_singleton]
    omega
  have hnone := fitTransform_ok_umap hlen hfit
  have h1 : ¬ st.ideas.length < cfg.min_ideas_for_clustering - 1 := by omega
  have h2 : st.ideas.length = cfg.min_ideas_for_clustering - 1 := by omega
  unfold createIdea
  rw [hnc]
  simp only []
  rw [if_neg h1, if_pos h2, hfit]
  unfold finishCreate
  simp only []
  have htot : (applyFitAux res.coordinates res.cluster_labels 0 st.ideas
      ++ [(⟨nid, uid, e,
        (res.coordinates.getD (res.coordinates.length - 1) (0, 0)).1,
        (res.coordinates.getD (res.coordinates.length - 1) (0, 0)).2,
        some (res.cluster_labels.getD (res.cluster_labels.length - 1) 0),
        nc.1, nc.2⟩ : Idea)]).length = cfg.min_ideas_for_clustering := by
    simp only [List.length_append, applyFitAux_length,
      List.length_singleton]
    omega
  refine ⟨trivial, rfl, rfl, ?_, ?_, ?_⟩
  · simp only [Except.map, Except.ok.injEq]
    rw [htot, hnone]
    have hle : decide (cfg.min_ideas_for_clustering
        ≤ cfg.min_ideas_for_clustering) = true := by simp
    rw [hle]
    simp
  · simp only [List.length_append, applyFitAux_length,
      List.length_singleton]
  · intro i hi
    rw [List.getD_append _ _ _ _ (by rw [applyFitAux_length]; exact hi)]
    have := applyFitAux_getD res.coordinates res.cluster_labels st.ideas 0 i hi
    simpa using this

/-- The one-idea session (threshold 2) used by the C1 counterexample and
witness: the next submission is the one that reaches exactly `T` ideas. -/
def c1Session : SessionState Unit Unit Unit :=
  ⟨[⟨1, 5, [(0 : ℝ), 1], 0, 0, none, 0, none⟩], 0, true, svcFresh, false, ()⟩

/-- C1, as stated, is false of the code: at a concrete submission that
brings a threshold-2 session to exactly 2 ideas, the combined flow
(`create_idea` plus the background task it schedules) executes two full
fits, not one, and `create_idea` itself leaves the watermark at 0 rather
than setting it to `T = 2`. -/
theorem c1_counterexample :
    (createIdeaWithTask ⟨2, 2, 20⟩ trivOracle trivRng c1Session 7 2
      [(1 : ℝ), 0]).2 = 2
    ∧ (createIdea ⟨2, 2, 20⟩ trivOracle trivRng c1Session 7 2
        [(1 : ℝ), 0]).1.last_clustered_idea_count = 0
    ∧ (0 : ℕ) ≠ 2 :=
  ⟨rfl, rfl, by decide⟩

/-- C1 witness: the amended statement at the same concrete submission: one
synchronous fit, recalculation flag set, watermark untouched, the existing
idea overwritten to the fit's output (the trivial oracle places it at the
origin in cluster 0), and the background re-fit scheduled. -/
theorem c1_witness :
    (createIdea ⟨2, 2, 20⟩ trivOracle trivRng c1Session 7 2
        [(1 : ℝ), 0]).1.last_clustered_idea_count = 0
    ∧ ((createIdea ⟨2, 2, 20⟩ trivOracle trivRng c1Session 7 2
        [(1 : ℝ), 0]).2).map (fun r => r.fit_calls) = .ok 1
    ∧ ((createIdea ⟨2, 2, 20⟩ trivOracle trivRng c1Session 7 2
        [(1 : ℝ), 0]).2).map (fun r => r.coordinates_recalculated) = .ok true
    ∧ ((createIdea ⟨2, 2, 20⟩ trivOracle trivRng c1Session 7 2
        [(1 : ℝ), 0]).2).map (fun r => r.recluster_scheduled) = .ok true
    ∧ (createIdea ⟨2, 2, 20⟩ trivOracle trivRng c1Session 7 2
        [(1 : ℝ), 0]).1.ideas.length = 2
    ∧ (∀ i, i < c1Session.ideas.length →
        (createIdea ⟨2, 2, 20⟩ trivOracle trivRng c1Session 7 2
          [(1 : ℝ), 0]).1.ideas.getD i dummyIdea =
          { c1Session.ideas.getD i dummyIdea with
              x := (((⟨[(0, 0), (0, 0)], [0, 0],
                  calcNClusters ⟨2, 2, 20⟩ none 2,
                  [(0, [(0, 0), (0, 0)])]⟩ : ClusteringResult)).coordinates.getD
                    i (0, 0)).1
              y := (((⟨[(0, 0), (0, 0)], [0, 0],
                  calcNClusters ⟨2, 2, 20⟩ none 2,
                  [(0, [(0, 0), (0, 0)])]⟩ : ClusteringResult)).coordinates.getD
                    i (0, 0)).2
              cluster_id := some (((⟨[(0, 0), (0, 0)], [0, 0],
                  calcNClusters ⟨2, 2, 20⟩ none 2,
                  [(0, [(0, 0), (0, 0)])]⟩ :
                    ClusteringResult)).cluster_labels.getD i 0) }) :=
  c1_first_fit_amended ⟨2, 2, 20⟩ trivOracle trivRng c1Session 7 2
    [(1 : ℝ), 0] ⟨50, 0.3, 42, none, some (), some ()⟩ ()
    ⟨[(0, 0), (0, 0)], [0, 0], calcNClusters ⟨2, 2, 20⟩ none 2,
      [(0, [(0, 0), (0, 0)])]⟩
    (min_distance_transform [cosineSim [(1 : ℝ), 0] [(0 : ℝ), 1]], some 1)
    rfl rfl rfl

end
end

end Farbrain